import Mathlib

/-!
Verification of the tower-jwt middleware: a shallow embedding of the
dispatch state machine (src/future.rs), the middleware service glue
(src/lib.rs), the in-place decoder (src/decoder.rs) and the test helpers
(src/util.rs), together with proofs of the specified properties.

Asynchronous values are modelled as completing futures: a pair of a
finite delay (number of polls that observe pending) and the final value.
The dispatch state machine is a step function on an explicit state type;
driving the future is fueled iteration of the step function that also
records every request handed to the wrapped service.
-/

set_option maxHeartbeats 1000000

namespace TowerJwt

/-- Result of polling an asynchronous operation once: pending or ready. -/
inductive Poll (α : Type) where
  | pending
  | ready (a : α)
deriving DecidableEq

/-- A completing future: `delay` polls observe pending, after which the
final `value` is ready. Models Rust futures that eventually resolve. -/
structure FFuture (α : Type) where
  delay : Nat
  value : α
deriving DecidableEq

/-- Rust `Poll::map_err` specialised to results, as used by `poll_ready`. -/
def Poll.mapErrorR {E E2 A : Type} (f : E → E2) :
    Poll (Except E A) → Poll (Except E2 A)
  | .pending => .pending
  | .ready r => .ready (r.mapError f)

/-- An `http::Request` as the middleware observes it: method, uri, headers,
body, plus the type-keyed extensions map split into the slot of the claim
type (`claimExt`, at most one value per type key) and all other entries
(`otherExt`, opaque to the middleware). -/
structure Request (B C X : Type) where
  method : String
  uri : String
  headers : List (String × String)
  body : B
  claimExt : Option C
  otherExt : X
deriving DecidableEq

/-- A wrapped tower service: `call` yields the response future for a
request, `readiness` is the outcome the service reports to one
`poll_ready` invocation. -/
structure Service (B C X R E : Type) where
  call : Request B C X → FFuture (Except E R)
  readiness : Poll (Except E Unit)

/-- The `Decoder` trait of src/decoder.rs: one operation turning a raw
token into a future of claim-or-error. -/
structure Decoder (Tok C DE : Type) where
  decode : Tok → FFuture (Except DE C)

/-- The error enum of src/lib.rs: missing authorization header (no
payload), decoder failure (carries the decoder error), inner service
failure (carries the service error). -/
inductive Error (E D : Type) where
  | MissingAuthorizationHeader
  | Decoder (err : D)
  | Inner (err : E)
deriving DecidableEq

/-- The two-variant dispatch state of src/future.rs: decoding holds the
pending decode future, responding holds the pending service future. -/
inductive State (DF SF : Type) where
  | Decoding (d : DF)
  | Responding (s : SF)

/-- Whether the dispatch state machine is still in the decoding phase. -/
def State.isDecoding {DF SF : Type} : State DF SF → Bool
  | .Decoding _ => true
  | .Responding _ => false

/-- `MiddlewareFuture` of src/future.rs: the cloned service handle, the
request slot (an option emptied via take at the hand-off), and the
dispatch state. -/
structure MiddlewareFuture (B C X R E DE : Type) where
  service : Service B C X R E
  request : Option (Request B C X)
  state : State (FFuture (Except DE C)) (FFuture (Except E R))

/-- `MiddlewareFuture::new`: store the service, the full request, and the
already-started decode future; start in the decoding state. -/
def MiddlewareFuture.new {B C X R E DE : Type} (service : Service B C X R E)
    (request : Request B C X) (decoderFuture : FFuture (Except DE C)) :
    MiddlewareFuture B C X R E DE :=
  { service := service, request := some request,
    state := .Decoding decoderFuture }

/-- One poll of `MiddlewareFuture` (src/future.rs poll): while decoding,
poll the decode future; on pending yield, on error resolve with the
decoder error, on success take the request (the `expect` panic is
modelled as `none`), insert the claim into the extensions slot, call the
service, switch to responding and continue polling the service future in
the same poll (the Rust loop); while responding, poll the service future
and map its error. Returns the poll outcome, the successor state, and
the list of requests handed to the wrapped service during this poll. -/
def MiddlewareFuture.poll {B C X R E DE : Type}
    (self : MiddlewareFuture B C X R E DE) :
    Option (Poll (Except (Error E DE) R) × MiddlewareFuture B C X R E DE
      × List (Request B C X)) :=
  match self.state with
  | .Decoding d =>
    match d.delay with
    | Nat.succ n =>
        some (.pending, { self with state := .Decoding ⟨n, d.value⟩ }, [])
    | 0 =>
      match d.value with
      | .error err => some (.ready (.error (.Decoder err)), self, [])
      | .ok claim =>
        match self.request with
        | none => none
        | some req =>
          let request := { req with claimExt := some claim }
          let fut := self.service.call request
          let next : MiddlewareFuture B C X R E DE :=
            { self with request := none, state := .Responding fut }
          match fut.delay with
          | 0 => some (.ready (fut.value.mapError Error.Inner), next, [request])
          | Nat.succ n =>
              some (.pending,
                { next with state := .Responding ⟨n, fut.value⟩ }, [request])
  | .Responding s =>
    match s.delay with
    | 0 => some (.ready (s.value.mapError Error.Inner), self, [])
    | Nat.succ n =>
        some (.pending, { self with state := .Responding ⟨n, s.value⟩ }, [])

/-- Outcome of driving a dispatch future with finite fuel: the fatal
missing-request branch was hit, the future is still in flight, or it
resolved. `calls` records every request handed to the wrapped service. -/
inductive Outcome (R F Q : Type) where
  | panicked (calls : List Q)
  | stillPending (f : F) (calls : List Q)
  | done (result : R) (calls : List Q)

/-- The requests handed to the wrapped service during a run. -/
def Outcome.calls {R F Q : Type} : Outcome R F Q → List Q
  | .panicked cs => cs
  | .stillPending _ cs => cs
  | .done _ cs => cs

/-- Drive a dispatch future by polling repeatedly (the external executor),
accumulating the requests handed to the wrapped service. -/
def MiddlewareFuture.run {B C X R E DE : Type} :
    Nat → MiddlewareFuture B C X R E DE → List (Request B C X) →
    Outcome (Except (Error E DE) R) (MiddlewareFuture B C X R E DE)
      (Request B C X)
  | 0, f, acc => .stillPending f acc
  | Nat.succ fuel, f, acc =>
    match f.poll with
    | none => .panicked acc
    | some (.ready out, _, cs) => .done out (acc ++ cs)
    | some (.pending, f2, cs) => MiddlewareFuture.run fuel f2 (acc ++ cs)

/-- Modelled from the spec: the typed-headers bearer extraction used by
`Middleware::call` (the typed_headers crate is an external collaborator).
Looks up the authorization header in the header collection. -/
def findAuthorization (headers : List (String × String)) : Option String :=
  (headers.find? (fun h => h.fst == "authorization")).map Prod.snd

/-- Modelled from the spec: `Authorization::as_bearer` — the header value
must carry the Bearer scheme; the token is the remainder. Any other
scheme or shape yields nothing. -/
def asBearer (value : String) : Option String :=
  let cs := value.toList
  if cs.take 7 = "Bearer ".toList then some (String.mk (cs.drop 7)) else none

/-- Token extraction of `Middleware::call`: absence of the header, a
non-bearer scheme, or an unparsable value all yield `none`. -/
def extractBearer (headers : List (String × String)) : Option String :=
  (findAuthorization headers).bind asBearer

/-- The middleware of src/lib.rs: a decoder and the wrapped service. -/
structure Middleware (B C X R E DE : Type) where
  service : Service B C X R E
  decoder : Decoder String C DE

/-- `futures::future::Either` as used for the middleware response future:
left is the dispatch state machine, right an already-completed result. -/
inductive CallFuture (F R : Type) where
  | left (f : F)
  | right (r : R)

/-- `Middleware::poll_ready`: forward the wrapped service readiness,
mapping a reported failure through the inner-error constructor. -/
def Middleware.poll_ready {B C X R E DE : Type}
    (m : Middleware B C X R E DE) : Poll (Except (Error E DE) Unit) :=
  m.service.readiness.mapErrorR Error.Inner

/-- `Middleware::call`: extract the bearer token; if missing, return the
completed missing-credential result without touching the decoder or the
service; otherwise start the decode and build the dispatch future. -/
def Middleware.call {B C X R E DE : Type} (m : Middleware B C X R E DE)
    (req : Request B C X) :
    CallFuture (MiddlewareFuture B C X R E DE) (Except (Error E DE) R) :=
  match extractBearer req.headers with
  | none => .right (.error .MissingAuthorizationHeader)
  | some token =>
      .left (MiddlewareFuture.new m.service req (m.decoder.decode token))

/-- Modelled from the spec: the signing algorithms of the jsonwebtoken
collaborator that appear at this interface boundary. -/
inductive Algorithm where
  | EdDSA
  | HS256
deriving DecidableEq

/-- The claim structure of src/util.rs: subject, token id, role, issuer,
expiry and issued-at timestamps. -/
structure Claim where
  sub : String
  jti : String
  role : String
  iss : String
  exp : Int
  iat : Int
deriving DecidableEq

/-- Modelled from the spec: a signing (private) key, identified by the
keypair it belongs to. -/
structure EncodingKey where
  keyId : Nat
deriving DecidableEq

/-- Modelled from the spec: a verification (public) key; it matches an
encoding key exactly when both belong to the same keypair. -/
structure DecodingKey where
  keyId : Nat
deriving DecidableEq

/-- Modelled from the spec: the validation policy of the reference
decoder — accepted signing algorithms, required issuer, expiry
enforcement. -/
structure Validation where
  algorithms : List Algorithm
  requiredIssuer : Option String
  validateExp : Bool
deriving DecidableEq

/-- Modelled from the spec: `Validation::new` accepts the one given
algorithm, requires no issuer, and enforces expiry. -/
def Validation.new (alg : Algorithm) : Validation :=
  { algorithms := [alg], requiredIssuer := none, validateExp := true }

/-- Modelled from the spec: a token header fixing the signing algorithm. -/
structure Header where
  alg : Algorithm
deriving DecidableEq

/-- Modelled from the spec: a signed token — the header algorithm, the
serialized claims, and the identity of the keypair that signed it. -/
structure JwtToken where
  alg : Algorithm
  claims : Claim
  signedWith : Nat
deriving DecidableEq

/-- Modelled from the spec: the failure granularity of the reference
decoder, distinguishable as expired versus other failure reasons. -/
inductive ErrorKind where
  | ExpiredSignature
  | InvalidSignature
  | InvalidAlgorithm
  | InvalidIssuer
deriving DecidableEq

/-- Modelled from the spec: `jsonwebtoken::encode` signs the claims under
the header algorithm with the given private key. -/
def encode (header : Header) (claim : Claim) (key : EncodingKey) : JwtToken :=
  { alg := header.alg, claims := claim, signedWith := key.keyId }

/-- Modelled from the spec: `jsonwebtoken::decode` — check the algorithm
against the policy, verify the signature against the verification key,
enforce expiry against the current time, check the required issuer, and
only then return the claims. -/
def jwtDecode (now : Int) (token : JwtToken) (key : DecodingKey)
    (v : Validation) : Except ErrorKind Claim :=
  if ¬ v.algorithms.contains token.alg then .error .InvalidAlgorithm
  else if token.signedWith ≠ key.keyId then .error .InvalidSignature
  else if v.validateExp ∧ token.claims.exp < now then .error .ExpiredSignature
  else
    match v.requiredIssuer with
    | some iss =>
        if token.claims.iss ≠ iss then .error .InvalidIssuer
        else .ok token.claims
    | none => .ok token.claims

/-- `InPlace` of src/decoder.rs: validation policy plus verification key,
immutable after construction. -/
structure InPlace where
  validation : Validation
  key : DecodingKey
deriving DecidableEq

/-- `InPlace::decode`: decode synchronously with the stored key and
policy at the clock reading `now`, wrapped as an already-ready future
(`future::ready`, delay zero). -/
def InPlace.decode (d : InPlace) (now : Int) (token : JwtToken) :
    FFuture (Except ErrorKind Claim) :=
  ⟨0, jwtDecode now token d.key d.validation⟩

/-- `token` of src/util.rs: sign the claim with an EdDSA header under the
private key (the fixed test keypair is abstracted as a keypair id). -/
def token (key : EncodingKey) (claim : Claim) : JwtToken :=
  encode { alg := .EdDSA } claim key

/-- `in_place_decoder` of src/util.rs: the public half of the keypair
with the default EdDSA validation policy. -/
def in_place_decoder (keypair : Nat) : InPlace :=
  { validation := Validation.new .EdDSA, key := { keyId := keypair } }

/-- A sample wrapped service used to evaluate the development on concrete
inputs: it answers every request with one pending poll and then "resp". -/
def svc0 : Service Unit Nat Unit String Nat :=
  { call := fun _ => ⟨1, .ok "resp"⟩, readiness := .ready (.ok ()) }

/-- A sample request with a well-formed bearer authorization header. -/
def req0 : Request Unit Nat Unit :=
  { method := "GET", uri := "/", headers := [("authorization", "Bearer t")],
    body := (), claimExt := none, otherExt := () }

/-- A sample decode future: one pending poll, then the claim 42. -/
def dfut0 : FFuture (Except Nat Nat) := ⟨1, Except.ok 42⟩

/-- The sample request augmented with the decoded claim. -/
def req0c : Request Unit Nat Unit := { req0 with claimExt := some 42 }

/-- A sample middleware over the sample service whose decoder accepts
every token after one pending poll. -/
def m0 : Middleware Unit Nat Unit String Nat Nat :=
  { service := svc0, decoder := ⟨fun _ => ⟨1, .ok 42⟩⟩ }

/-- A sample middleware whose decoder rejects every token at once. -/
def mDec0 : Middleware Unit Nat Unit String Nat Nat :=
  { service := svc0, decoder := ⟨fun _ => ⟨0, .error 7⟩⟩ }

/-- A sample middleware whose wrapped service reports a readiness error. -/
def mErr0 : Middleware Unit Nat Unit String Nat Nat :=
  { service := { call := fun _ => ⟨0, .ok "resp"⟩,
                 readiness := .ready (.error 7) },
    decoder := ⟨fun _ => ⟨0, .ok 0⟩⟩ }

/-- The concrete claim of the spec scenarios, not yet expired at time 0. -/
def claimValid0 : Claim :=
  { sub := "sub", jti := "jti", role := "moderator", iss := "issuer",
    exp := 100, iat := 0 }

/-- The concrete expired claim of the spec scenarios: issued 100 seconds
before time 0, expired 90 seconds before time 0. -/
def claimExpired0 : Claim :=
  { sub := "sub", jti := "jti", role := "moderator", iss := "issuer",
    exp := -90, iat := -100 }

/-- The sample request with a pre-existing claim extension value. -/
def req0old : Request Unit Nat Unit := { req0 with claimExt := some 7 }

/-- The request slot is occupied exactly in the decoding phase. -/
def MiddlewareFuture.goodRequestSlot {B C X R E DE : Type}
    (f : MiddlewareFuture B C X R E DE) : Prop :=
  f.state.isDecoding = f.request.isSome

lemma run_responding_done {B C X R E DE : Type} (svc : Service B C X R E)
    (rq : Option (Request B C X)) (v : Except E R) :
    ∀ (m fuel : Nat) (acc : List (Request B C X)), m < fuel →
    MiddlewareFuture.run fuel
      ({ service := svc, request := rq, state := .Responding ⟨m, v⟩ } :
        MiddlewareFuture B C X R E DE) acc
      = .done (v.mapError Error.Inner) acc := by
  intro m
  induction m with
  | zero =>
    intro fuel acc h
    match fuel, h with
    | Nat.succ k, _ =>
      simp [MiddlewareFuture.run, MiddlewareFuture.poll]
  | succ n ih =>
    intro fuel acc h
    match fuel, h with
    | Nat.succ k, h =>
      have hk : n < k := Nat.lt_of_succ_lt_succ h
      simp [MiddlewareFuture.run, MiddlewareFuture.poll, ih k acc hk]

lemma run_responding_calls {B C X R E DE : Type} (svc : Service B C X R E) :
    ∀ (fuel : Nat) (rq : Option (Request B C X))
      (sf : FFuture (Except E R)) (acc : List (Request B C X)),
    (MiddlewareFuture.run fuel
      ({ service := svc, request := rq, state := .Responding sf } :
        MiddlewareFuture B C X R E DE) acc).calls = acc := by
  intro fuel
  induction fuel with
  | zero =>
    intro rq sf acc
    simp [MiddlewareFuture.run, Outcome.calls]
  | succ k ih =>
    intro rq sf acc
    cases sf with
    | mk m v =>
      cases m with
      | zero => simp [MiddlewareFuture.run, MiddlewareFuture.poll, Outcome.calls]
      | succ n => simp [MiddlewareFuture.run, MiddlewareFuture.poll, ih]

lemma run_responding_out {B C X R E DE : Type} (svc : Service B C X R E) :
    ∀ (fuel : Nat) (rq : Option (Request B C X)) (sf : FFuture (Except E R))
      (acc cs : List (Request B C X)) (out : Except (Error E DE) R),
    MiddlewareFuture.run fuel
      ({ service := svc, request := rq, state := .Responding sf } :
        MiddlewareFuture B C X R E DE) acc = .done out cs →
    out = sf.value.mapError Error.Inner := by
  intro fuel
  induction fuel with
  | zero =>
    intro rq sf acc cs out h
    simp [MiddlewareFuture.run] at h
  | succ k ih =>
    intro rq sf acc cs out h
    cases sf with
    | mk m v =>
      cases m with
      | zero =>
        simp [MiddlewareFuture.run, MiddlewareFuture.poll] at h
        exact h.1.symm
      | succ n =>
        simp [MiddlewareFuture.run, MiddlewareFuture.poll] at h
        exact ih rq ⟨n, v⟩ acc cs out h

lemma run_decoding_err {B C X R E DE : Type} (svc : Service B C X R E)
    (rq : Option (Request B C X)) (e : DE) :
    ∀ (dd fuel : Nat) (acc : List (Request B C X)), dd < fuel →
    MiddlewareFuture.run fuel
      ({ service := svc, request := rq, state := .Decoding ⟨dd, .error e⟩ } :
        MiddlewareFuture B C X R E DE) acc
      = .done (.error (.Decoder e)) acc := by
  intro dd
  induction dd with
  | zero =>
    intro fuel acc h
    match fuel, h with
    | Nat.succ k, _ =>
      simp [MiddlewareFuture.run, MiddlewareFuture.poll]
  | succ n ih =>
    intro fuel acc h
    match fuel, h with
    | Nat.succ k, h =>
      have hk : n < k := Nat.lt_of_succ_lt_succ h
      simp [MiddlewareFuture.run, MiddlewareFuture.poll, ih k acc hk]

lemma run_decoding_ok {B C X R E DE : Type} (svc : Service B C X R E)
    (req : Request B C X) (claim : C) :
    ∀ (dd fuel : Nat) (acc : List (Request B C X)),
    dd + (svc.call { req with claimExt := some claim }).delay < fuel →
    MiddlewareFuture.run fuel
      ({ service := svc, request := some req,
         state := .Decoding ⟨dd, .ok claim⟩ } :
        MiddlewareFuture B C X R E DE) acc
      = .done
          ((svc.call { req with claimExt := some claim }).value.mapError
            Error.Inner)
          (acc ++ [{ req with claimExt := some claim }]) := by
  intro dd
  induction dd with
  | zero =>
    intro fuel acc h
    match fuel, h with
    | Nat.succ k, h =>
      cases hfut : svc.call { req with claimExt := some claim } with
      | mk fd fv =>
        cases fd with
        | zero =>
          simp [MiddlewareFuture.run, MiddlewareFuture.poll, hfut]
        | succ m =>
          have hm : m < k := by
            rw [hfut] at h
            simpa using Nat.lt_of_succ_lt_succ h
          simp [MiddlewareFuture.run, MiddlewareFuture.poll, hfut,
            run_responding_done svc none fv m k
              (acc ++ [{ req with claimExt := some claim }]) hm]
  | succ n ih =>
    intro fuel acc h
    match fuel, h with
    | Nat.succ k, h =>
      have hk : n + (svc.call { req with claimExt := some claim }).delay < k := by
        omega
      simp [MiddlewareFuture.run, MiddlewareFuture.poll, ih k acc hk]

lemma run_decoding_calls {B C X R E DE : Type} (svc : Service B C X R E)
    (req : Request B C X) :
    ∀ (fuel dd : Nat) (dv : Except DE C) (acc : List (Request B C X)),
    (MiddlewareFuture.run fuel
      ({ service := svc, request := some req, state := .Decoding ⟨dd, dv⟩ } :
        MiddlewareFuture B C X R E DE) acc).calls = acc ∨
    ∃ c, dv = .ok c ∧
      (MiddlewareFuture.run fuel
        ({ service := svc, request := some req, state := .Decoding ⟨dd, dv⟩ } :
          MiddlewareFuture B C X R E DE) acc).calls
        = acc ++ [{ req with claimExt := some c }] := by
  intro fuel
  induction fuel with
  | zero =>
    intro dd dv acc
    left
    simp [MiddlewareFuture.run, Outcome.calls]
  | succ k ih =>
    intro dd dv acc
    cases dd with
    | succ n =>
      simpa [MiddlewareFuture.run, MiddlewareFuture.poll] using ih n dv acc
    | zero =>
      cases dv with
      | error e =>
        left
        simp [MiddlewareFuture.run, MiddlewareFuture.poll, Outcome.calls]
      | ok c =>
        right
        refine ⟨c, rfl, ?_⟩
        cases hfut : svc.call { req with claimExt := some c } with
        | mk fd fv =>
          cases fd with
          | zero =>
            simp [MiddlewareFuture.run, MiddlewareFuture.poll, hfut,
              Outcome.calls]
          | succ m =>
            simp [MiddlewareFuture.run, MiddlewareFuture.poll, hfut,
              run_responding_calls svc k none ⟨m, fv⟩
                (acc ++ [{ req with claimExt := some c }])]

lemma run_decoding_out {B C X R E DE : Type} (svc : Service B C X R E)
    (req : Request B C X) :
    ∀ (fuel dd : Nat) (dv : Except DE C) (acc cs : List (Request B C X))
      (out : Except (Error E DE) R),
    MiddlewareFuture.run fuel
      ({ service := svc, request := some req, state := .Decoding ⟨dd, dv⟩ } :
        MiddlewareFuture B C X R E DE) acc = .done out cs →
    (∃ e, dv = .error e ∧ out = .error (.Decoder e)) ∨
    (∃ c, dv = .ok c ∧
      out = (svc.call { req with claimExt := some c }).value.mapError
        Error.Inner) := by
  intro fuel
  induction fuel with
  | zero =>
    intro dd dv acc cs out h
    simp [MiddlewareFuture.run] at h
  | succ k ih =>
    intro dd dv acc cs out h
    cases dd with
    | succ n =>
      have h2 : MiddlewareFuture.run k
          ({ service := svc, request := some req,
             state := .Decoding ⟨n, dv⟩ } :
            MiddlewareFuture B C X R E DE) acc = .done out cs := by
        simpa [MiddlewareFuture.run, MiddlewareFuture.poll] using h
      exact ih n dv acc cs out h2
    | zero =>
      cases dv with
      | error e =>
        left
        refine ⟨e, rfl, ?_⟩
        simp [MiddlewareFuture.run, MiddlewareFuture.poll] at h
        exact h.1.symm
      | ok c =>
        right
        refine ⟨c, rfl, ?_⟩
        cases hfut : svc.call { req with claimExt := some c } with
        | mk fd fv =>
          cases fd with
          | zero =>
            simp [MiddlewareFuture.run, MiddlewareFuture.poll, hfut] at h
            exact h.1.symm
          | succ m =>
            have h2 : MiddlewareFuture.run k
                ({ service := svc, request := none,
                   state := .Responding ⟨m, fv⟩ } :
                  MiddlewareFuture B C X R E DE)
                (acc ++ [{ req with claimExt := some c }]) = .done out cs := by
              simpa [MiddlewareFuture.run, MiddlewareFuture.poll, hfut] using h
            exact run_responding_out svc k none ⟨m, fv⟩
              (acc ++ [{ req with claimExt := some c }]) cs out h2

lemma run_responding_no_panic {B C X R E DE : Type} (svc : Service B C X R E) :
    ∀ (fuel : Nat) (rq : Option (Request B C X)) (sf : FFuture (Except E R))
      (acc : List (Request B C X)),
    (∀ cs, MiddlewareFuture.run fuel
      ({ service := svc, request := rq, state := .Responding sf } :
        MiddlewareFuture B C X R E DE) acc ≠ .panicked cs) ∧
    (∀ f2 cs, MiddlewareFuture.run fuel
      ({ service := svc, request := rq, state := .Responding sf } :
        MiddlewareFuture B C X R E DE) acc = .stillPending f2 cs →
      ∃ sf2, f2 = { service := svc, request := rq, state := .Responding sf2 }) := by
  intro fuel
  induction fuel with
  | zero =>
    intro rq sf acc
    refine ⟨fun cs h => by simp [MiddlewareFuture.run] at h,
      fun f2 cs h => ?_⟩
    simp [MiddlewareFuture.run] at h
    exact ⟨sf, h.1.symm⟩
  | succ k ih =>
    intro rq sf acc
    obtain ⟨m, v⟩ := sf
    cases m with
    | zero =>
      refine ⟨fun cs h => by simp [MiddlewareFuture.run, MiddlewareFuture.poll] at h,
        fun f2 cs h => by simp [MiddlewareFuture.run, MiddlewareFuture.poll] at h⟩
    | succ n =>
      refine ⟨fun cs h => ?_, fun f2 cs h => ?_⟩
      · have h2 : MiddlewareFuture.run k
            ({ service := svc, request := rq, state := .Responding ⟨n, v⟩ } :
              MiddlewareFuture B C X R E DE) acc = .panicked cs := by
          simpa [MiddlewareFuture.run, MiddlewareFuture.poll] using h
        exact (ih rq ⟨n, v⟩ acc).1 cs h2
      · have h2 : MiddlewareFuture.run k
            ({ service := svc, request := rq, state := .Responding ⟨n, v⟩ } :
              MiddlewareFuture B C X R E DE) acc = .stillPending f2 cs := by
          simpa [MiddlewareFuture.run, MiddlewareFuture.poll] using h
        exact (ih rq ⟨n, v⟩ acc).2 f2 cs h2

lemma run_decoding_no_panic {B C X R E DE : Type} (svc : Service B C X R E)
    (req : Request B C X) :
    ∀ (fuel dd : Nat) (dv : Except DE C) (acc : List (Request B C X)),
    (∀ cs, MiddlewareFuture.run fuel
      ({ service := svc, request := some req, state := .Decoding ⟨dd, dv⟩ } :
        MiddlewareFuture B C X R E DE) acc ≠ .panicked cs) ∧
    (∀ f2 cs, MiddlewareFuture.run fuel
      ({ service := svc, request := some req, state := .Decoding ⟨dd, dv⟩ } :
        MiddlewareFuture B C X R E DE) acc = .stillPending f2 cs →
      f2.goodRequestSlot) := by
  intro fuel
  induction fuel with
  | zero =>
    intro dd dv acc
    refine ⟨fun cs h => by simp [MiddlewareFuture.run] at h,
      fun f2 cs h => ?_⟩
    simp [MiddlewareFuture.run] at h
    rw [← h.1]
    simp [MiddlewareFuture.goodRequestSlot, State.isDecoding]
  | succ k ih =>
    intro dd dv acc
    cases dd with
    | succ n =>
      refine ⟨fun cs h => ?_, fun f2 cs h => ?_⟩
      · have h2 : MiddlewareFuture.run k
            ({ service := svc, request := some req,
               state := .Decoding ⟨n, dv⟩ } :
              MiddlewareFuture B C X R E DE) acc = .panicked cs := by
          simpa [MiddlewareFuture.run, MiddlewareFuture.poll] using h
        exact (ih n dv acc).1 cs h2
      · have h2 : MiddlewareFuture.run k
            ({ service := svc, request := some req,
               state := .Decoding ⟨n, dv⟩ } :
              MiddlewareFuture B C X R E DE) acc = .stillPending f2 cs := by
          simpa [MiddlewareFuture.run, MiddlewareFuture.poll] using h
        exact (ih n dv acc).2 f2 cs h2
    | zero =>
      cases dv with
      | error e =>
        refine ⟨fun cs h => by simp [MiddlewareFuture.run, MiddlewareFuture.poll] at h,
          fun f2 cs h => by simp [MiddlewareFuture.run, MiddlewareFuture.poll] at h⟩
      | ok c =>
        cases hfut : svc.call { req with claimExt := some c } with
        | mk fd fv =>
          cases fd with
          | zero =>
            refine ⟨fun cs h => by
              simp [MiddlewareFuture.run, MiddlewareFuture.poll, hfut] at h,
              fun f2 cs h => by
              simp [MiddlewareFuture.run, MiddlewareFuture.poll, hfut] at h⟩
          | succ m =>
            refine ⟨fun cs h => ?_, fun f2 cs h => ?_⟩
            · have h2 : MiddlewareFuture.run k
                  ({ service := svc, request := none,
                     state := .Responding ⟨m, fv⟩ } :
                    MiddlewareFuture B C X R E DE)
                  (acc ++ [{ req with claimExt := some c }]) = .panicked cs := by
                simpa [MiddlewareFuture.run, MiddlewareFuture.poll, hfut] using h
              exact (run_responding_no_panic svc k none ⟨m, fv⟩
                (acc ++ [{ req with claimExt := some c }])).1 cs h2
            · have h2 : MiddlewareFuture.run k
                  ({ service := svc, request := none,
                     state := .Responding ⟨m, fv⟩ } :
                    MiddlewareFuture B C X R E DE)
                  (acc ++ [{ req with claimExt := some c }])
                  = .stillPending f2 cs := by
                simpa [MiddlewareFuture.run, MiddlewareFuture.poll, hfut] using h
              obtain ⟨sf2, hsf2⟩ := (run_responding_no_panic svc k none ⟨m, fv⟩
                (acc ++ [{ req with claimExt := some c }])).2 f2 cs h2
              rw [hsf2]
              simp [MiddlewareFuture.goodRequestSlot, State.isDecoding]

/-- Claim C1: for every request carrying a bearer credential that the
decoder accepts, the middleware builds the dispatch future, and driving
it to completion invokes the wrapped service exactly once, with the
decoded claim attached to the request extensions; the dispatch result is
the wrapped service response unchanged — a success value is passed
through, a service error is wrapped only as the inner-service kind. -/
theorem c1_accepted_credential_dispatch {B C X R E DE : Type}
    (m : Middleware B C X R E DE) (req : Request B C X) (tok : String)
    (claim : C)
    (hextract : extractBearer req.headers = some tok)
    (hdecode : (m.decoder.decode tok).value = .ok claim) :
    m.call req
      = .left (MiddlewareFuture.new m.service req (m.decoder.decode tok)) ∧
    ∀ fuel,
      (m.decoder.decode tok).delay
        + (m.service.call { req with claimExt := some claim }).delay < fuel →
      MiddlewareFuture.run fuel
        (MiddlewareFuture.new m.service req (m.decoder.decode tok)) []
        = .done
            ((m.service.call { req with claimExt := some claim }).value.mapError
              Error.Inner)
            [{ req with claimExt := some claim }] := by
  constructor
  · simp [Middleware.call, hextract]
  · intro fuel hfuel
    cases hd : m.decoder.decode tok with
    | mk dd dv =>
      rw [hd] at hdecode hfuel
      simp only [FFuture.value] at hdecode
      subst hdecode
      have := @run_decoding_ok B C X R E DE m.service req claim dd fuel []
        (by simpa using hfuel)
      simpa [MiddlewareFuture.new] using this

theorem c1_witness :
    m0.call req0
      = .left (MiddlewareFuture.new m0.service req0 (m0.decoder.decode "t")) ∧
    MiddlewareFuture.run 3
      (MiddlewareFuture.new m0.service req0 (m0.decoder.decode "t")) []
      = .done (.ok "resp") [req0c] :=
  ⟨(c1_accepted_credential_dispatch m0 req0 "t" 42 (by decide) (by rfl)).1,
    (c1_accepted_credential_dispatch m0 req0 "t" 42 (by decide) (by rfl)).2
      3 (by decide)⟩

/-- Claim C2: whenever the decode operation completes with an error, the
dispatch resolves to the decode-failure kind carrying that decoder error
and the wrapped service is never invoked; moreover the reference decoder
rejects a properly signed credential whose expiry is in the past with
the expired kind. -/
theorem c2_decode_failure_short_circuits {B C X R E DE : Type} :
    (∀ (svc : Service B C X R E) (req : Request B C X)
       (dfut : FFuture (Except DE C)) (e : DE) (fuel : Nat),
      dfut.value = .error e → dfut.delay < fuel →
      MiddlewareFuture.run fuel (MiddlewareFuture.new svc req dfut) []
        = .done (.error (.Decoder e)) []) ∧
    (∀ (keypair : Nat) (claim : Claim) (now : Int), claim.exp < now →
      (in_place_decoder keypair).decode now (token ⟨keypair⟩ claim)
        = ⟨0, .error .ExpiredSignature⟩) := by
  constructor
  · intro svc req dfut e fuel hv hf
    cases dfut with
    | mk dd dv =>
      simp only [FFuture.value] at hv
      subst hv
      simpa [MiddlewareFuture.new] using
        run_decoding_err svc (some req) e dd fuel [] (by simpa using hf)
  · intro keypair claim now hexp
    simp [in_place_decoder, InPlace.decode, jwtDecode, token, encode,
      Validation.new, hexp]

theorem c2_witness :
    MiddlewareFuture.run 2
      (MiddlewareFuture.new svc0 req0
        (⟨1, .error 7⟩ : FFuture (Except Nat Nat))) []
      = .done (.error (.Decoder 7)) [] ∧
    (in_place_decoder 5).decode 0 (token ⟨5⟩ claimExpired0)
      = ⟨0, .error .ExpiredSignature⟩ :=
  ⟨(@c2_decode_failure_short_circuits Unit Nat Unit String Nat Nat).1
      svc0 req0 ⟨1, .error 7⟩ 7 2 (by rfl) (by decide),
    (@c2_decode_failure_short_circuits Unit Nat Unit String Nat Nat).2
      5 claimExpired0 0 (by decide)⟩

/-- Claim C3: for every request whose authorization header is absent,
non-bearer or unparsable (token extraction yields nothing), the
middleware returns the already-completed missing-credential result: the
decoder is never started and the wrapped service never invoked. -/
theorem c3_missing_credential_synchronous {B C X R E DE : Type}
    (m : Middleware B C X R E DE) (req : Request B C X)
    (h : extractBearer req.headers = none) :
    m.call req = .right (.error .MissingAuthorizationHeader) := by
  simp [Middleware.call, h]

theorem c3_witness :
    m0.call { req0 with headers := [] }
      = .right (.error .MissingAuthorizationHeader) ∧
    m0.call { req0 with headers := [("authorization", "Basic t")] }
      = .right (.error .MissingAuthorizationHeader) :=
  ⟨c3_missing_credential_synchronous m0 _ (by decide),
    c3_missing_credential_synchronous m0 _ (by decide)⟩

/-- Claim C4: across any number of polls of one dispatch, the wrapped
service is invoked at most once; moreover from the responding phase
every poll stays in the responding phase (no transition back to
decoding) and performs no further invocation. -/
theorem c4_at_most_one_invocation {B C X R E DE : Type}
    (svc : Service B C X R E) (req : Request B C X)
    (dfut : FFuture (Except DE C)) :
    (∀ fuel,
      ((MiddlewareFuture.run fuel
        (MiddlewareFuture.new svc req dfut) []).calls).length ≤ 1) ∧
    (∀ (rq : Option (Request B C X)) (sf : FFuture (Except E R)),
      ∃ p sf2,
        MiddlewareFuture.poll
          ({ service := svc, request := rq, state := .Responding sf } :
            MiddlewareFuture B C X R E DE)
          = some (p,
              { service := svc, request := rq, state := .Responding sf2 },
              [])) := by
  constructor
  · intro fuel
    cases dfut with
    | mk dd dv =>
      rcases run_decoding_calls svc req fuel dd dv [] with h | ⟨c, _, h⟩ <;>
        simp only [MiddlewareFuture.new] <;> rw [h] <;> simp
  · intro rq sf
    obtain ⟨m, v⟩ := sf
    cases m with
    | zero => exact ⟨.ready (v.mapError Error.Inner), ⟨0, v⟩, rfl⟩
    | succ n => exact ⟨.pending, ⟨n, v⟩, rfl⟩

/-- Claim C5: a dispatch future constructed by new never reaches the
fatal missing-request branch, and in every still-in-flight state the
request slot is occupied exactly when the machine is still decoding. -/
theorem c5_request_slot_invariant {B C X R E DE : Type}
    (svc : Service B C X R E) (req : Request B C X)
    (dfut : FFuture (Except DE C)) :
    (∀ fuel acc cs,
      MiddlewareFuture.run fuel (MiddlewareFuture.new svc req dfut) acc
        ≠ .panicked cs) ∧
    (∀ fuel acc f2 cs,
      MiddlewareFuture.run fuel (MiddlewareFuture.new svc req dfut) acc
        = .stillPending f2 cs →
      f2.state.isDecoding = f2.request.isSome) := by
  cases dfut with
  | mk dd dv =>
    constructor
    · intro fuel acc cs
      exact (run_decoding_no_panic svc req fuel dd dv acc).1 cs
    · intro fuel acc f2 cs h
      exact (run_decoding_no_panic svc req fuel dd dv acc).2 f2 cs h

theorem c5_witness :
    (MiddlewareFuture.run 1 (MiddlewareFuture.new svc0 req0 dfut0) []
      ≠ .panicked []) ∧
    (({ service := svc0, request := some req0,
        state := .Decoding ⟨0, .ok 42⟩ } :
        MiddlewareFuture Unit Nat Unit String Nat Nat).state.isDecoding
      = ({ service := svc0, request := some req0,
           state := .Decoding ⟨0, .ok 42⟩ } :
          MiddlewareFuture Unit Nat Unit String Nat Nat).request.isSome) :=
  ⟨(c5_request_slot_invariant svc0 req0 dfut0).1 1 [] [],
    (c5_request_slot_invariant svc0 req0 dfut0).2 1 [] _ [] (by rfl)⟩

/-- Claim C6: the middleware readiness check returns exactly the wrapped
service readiness result — pending and success are forwarded unchanged,
a reported failure is translated into the inner-service error kind, and
every readiness error the middleware reports originates from the wrapped
service (no extraction or decode is involved). -/
theorem c6_readiness_forwarding {B C X R E DE : Type}
    (m : Middleware B C X R E DE) :
    (m.poll_ready = .pending ↔ m.service.readiness = .pending) ∧
    (m.poll_ready = .ready (.ok ()) ↔ m.service.readiness = .ready (.ok ())) ∧
    (∀ e, m.poll_ready = .ready (.error (.Inner e))
      ↔ m.service.readiness = .ready (.error e)) ∧
    (∀ er, m.poll_ready = .ready (.error er) →
      ∃ e, er = .Inner e ∧ m.service.readiness = .ready (.error e)) := by
  cases hr : m.service.readiness with
  | pending =>
    refine ⟨?_, ?_, ?_, ?_⟩ <;>
      simp [Middleware.poll_ready, Poll.mapErrorR, hr]
  | ready r =>
    cases r with
    | ok u =>
      cases u
      refine ⟨?_, ?_, ?_, ?_⟩ <;>
        simp [Middleware.poll_ready, Poll.mapErrorR, Except.mapError, hr]
    | error e =>
      refine ⟨?_, ?_, ?_, ?_⟩ <;>
        simp [Middleware.poll_ready, Poll.mapErrorR, Except.mapError, hr]

theorem c6_witness :
    ∃ e, (Error.Inner 7 : Error Nat Nat) = Error.Inner e ∧
      mErr0.service.readiness = .ready (.error e) :=
  (c6_readiness_forwarding mErr0).2.2.2 (Error.Inner 7) (by rfl)

/-- Claim C7: every error the middleware produces is one of exactly three
kinds — the completed missing-credential result of call, a decode
failure carrying the decoder error value unmodified, or an inner-service
failure carrying the service error value unmodified; no other error is
ever synthesized. -/
theorem c7_error_taxonomy {B C X R E DE : Type}
    (m : Middleware B C X R E DE) (req : Request B C X) (fuel : Nat) :
    (∀ r, m.call req = .right r → r = .error .MissingAuthorizationHeader) ∧
    (∀ f out cs er, m.call req = .left f →
      MiddlewareFuture.run fuel f [] = .done out cs → out = .error er →
      (∃ tok e, extractBearer req.headers = some tok ∧
        (m.decoder.decode tok).value = .error e ∧ er = .Decoder e) ∨
      (∃ tok c e, extractBearer req.headers = some tok ∧
        (m.decoder.decode tok).value = .ok c ∧
        (m.service.call { req with claimExt := some c }).value = .error e ∧
        er = .Inner e)) := by
  constructor
  · intro r h
    cases hex : extractBearer req.headers with
    | none =>
      simp [Middleware.call, hex] at h
      exact h.symm
    | some tok => simp [Middleware.call, hex] at h
  · intro f out cs er hcall hrun hout
    cases hex : extractBearer req.headers with
    | none => simp [Middleware.call, hex] at hcall
    | some tok =>
      simp [Middleware.call, hex] at hcall
      subst hcall
      cases hd : m.decoder.decode tok with
      | mk dd dv =>
        rw [hd] at hrun
        have hclass := run_decoding_out m.service req fuel dd dv [] cs out
          (by simpa [MiddlewareFuture.new] using hrun)
        rcases hclass with ⟨e, hdv, hout2⟩ | ⟨c, hdv, hout2⟩
        · left
          refine ⟨tok, e, rfl, by rw [hd]; exact hdv, ?_⟩
          rw [hout] at hout2
          exact Except.error.inj hout2
        · cases hsv : (m.service.call { req with claimExt := some c }).value with
          | ok r =>
            rw [hout, hsv] at hout2
            simp [Except.mapError] at hout2
          | error e =>
            right
            refine ⟨tok, c, e, rfl, by rw [hd]; exact hdv, hsv, ?_⟩
            rw [hout, hsv] at hout2
            simp [Except.mapError] at hout2
            exact hout2

theorem c7_witness :
    (∃ tok e, extractBearer req0.headers = some tok ∧
      (mDec0.decoder.decode tok).value = .error e ∧
      (Error.Decoder 7 : Error Nat Nat) = .Decoder e) ∨
    (∃ tok c e, extractBearer req0.headers = some tok ∧
      (mDec0.decoder.decode tok).value = .ok c ∧
      (mDec0.service.call { req0 with claimExt := some c }).value
        = .error e ∧
      (Error.Decoder 7 : Error Nat Nat) = .Inner e) :=
  (c7_error_taxonomy mDec0 req0 1).2
    (MiddlewareFuture.new mDec0.service req0 (mDec0.decoder.decode "t"))
    (.error (.Decoder 7)) [] (.Decoder 7) (by rfl) (by rfl) (by rfl)

/-- Claim C8: encoding any claim with the reference encoder and decoding
it with the decoder configured with the matching verification key and
policy succeeds and yields the original claim, provided the expiry is in
the future. -/
theorem c8_claim_roundtrip (claim : Claim) (keypair : Nat) (now : Int)
    (hexp : now < claim.exp) :
    (in_place_decoder keypair).decode now (token ⟨keypair⟩ claim)
      = ⟨0, .ok claim⟩ := by
  have hn : ¬ claim.exp < now := by omega
  simp [in_place_decoder, InPlace.decode, jwtDecode, token, encode,
    Validation.new, hn]

theorem c8_witness :
    (in_place_decoder 5).decode 0 (token ⟨5⟩ claimValid0)
      = ⟨0, .ok claimValid0⟩ :=
  c8_claim_roundtrip claimValid0 5 0 (by decide)

/-- Claim C9: whenever a dispatch hands a request to the wrapped service,
that request is the original incoming request with exactly one
modification — the decoded claim stored in the claim extension slot; the
method, uri, headers (including the authorization header), body, and all
other extensions are unchanged. -/
theorem c9_request_frame {B C X R E DE : Type}
    (svc : Service B C X R E) (req : Request B C X)
    (dfut : FFuture (Except DE C)) (fuel : Nat) (r : Request B C X)
    (hmem : r ∈ (MiddlewareFuture.run fuel
      (MiddlewareFuture.new svc req dfut) []).calls) :
    ∃ c, dfut.value = .ok c ∧ r = { req with claimExt := some c } := by
  cases dfut with
  | mk dd dv =>
    simp only [MiddlewareFuture.new] at hmem
    rcases run_decoding_calls svc req fuel dd dv [] with h | ⟨c, hdv, h⟩
    · rw [h] at hmem
      simp at hmem
    · rw [h] at hmem
      simp at hmem
      exact ⟨c, hdv, hmem⟩

theorem c9_witness :
    ∃ c, dfut0.value = .ok c ∧ req0c = { req0 with claimExt := some c } :=
  c9_request_frame svc0 req0 dfut0 3 req0c (by decide)

/-- Claim C10: if the incoming request already carries a value in the
claim extension slot, the successful-decode path overwrites it: the
wrapped service observes the freshly decoded claim and never the
pre-existing value. -/
theorem c10_claim_overwrite {B C X R E DE : Type}
    (svc : Service B C X R E) (req : Request B C X)
    (dfut : FFuture (Except DE C)) (fuel : Nat) (r : Request B C X)
    (old c : C)
    (_hold : req.claimExt = some old)
    (hdv : dfut.value = .ok c)
    (hmem : r ∈ (MiddlewareFuture.run fuel
      (MiddlewareFuture.new svc req dfut) []).calls) :
    r.claimExt = some c ∧ (old ≠ c → r.claimExt ≠ some old) := by
  cases dfut with
  | mk dd dv =>
    simp only [FFuture.value] at hdv
    subst hdv
    simp only [MiddlewareFuture.new] at hmem
    rcases run_decoding_calls svc req fuel dd (Except.ok c) [] with h | ⟨c2, hc2, h⟩
    · rw [h] at hmem
      simp at hmem
    · rw [h] at hmem
      simp at hmem
      have hcc : c2 = c := by
        have := Except.ok.inj hc2.symm
        exact this
      subst hcc
      subst hmem
      constructor
      · rfl
      · intro hne hcontra
        simp at hcontra
        exact hne hcontra.symm

theorem c10_witness :
    ({ req0old with claimExt := some 42 } :
      Request Unit Nat Unit).claimExt = some 42 ∧
    ((7 : Nat) ≠ 42 →
      ({ req0old with claimExt := some 42 } :
        Request Unit Nat Unit).claimExt ≠ some 7) :=
  c10_claim_overwrite svc0 req0old dfut0 3 { req0old with claimExt := some 42 }
    7 42 (by rfl) (by rfl) (by decide)

end TowerJwt
